import Mathlib

/-!
Verification of the scoped URL-discovery engine of the `webscraping`
repository (`discovery_all.py`, `discovery_cdp.py`, `discovery_playwright.py`,
`crawler.py`).

Python strings are modelled as `List Char`.  The pieces of CPython's
`urllib.parse` that the scripts call (`urlsplit`, `urljoin`, the split
helpers) are embedded as executable Lean functions following the CPython
implementation.  Compiled regular expressions (`re.compile(p, re.I).search`)
are modelled as opaque boolean predicates on the searched string, since the
scripts never inspect the pattern beyond calling `search`.  Network fetching
is modelled as an explicit function from a URL to a response datum; the body
of the engines' loops is translated statement by statement.
-/

namespace WebScraping

/-- A Python string: a sequence of code points. -/
abbrev Str := List Char

/-- Shorthand to write a modelled Python string from a Lean literal. -/
def str (s : String) : Str := s.data

/-- A URL, which in the scripts is just a string. -/
abbrev Url := Str

/-- Python `s.split(sep, 1)` when `sep` occurs in `s`: returns the part
before the first occurrence and the part after it; `none` when `sep` does
not occur. -/
def splitOnceAt (sep : Char) : Str → Option (Str × Str)
  | [] => none
  | c :: rest =>
    if c = sep then some ([], rest)
    else
      match splitOnceAt sep rest with
      | some pr => some (c :: pr.1, pr.2)
      | none => none

/-- Python `str.lower` restricted to ASCII, which is all the scripts use it
for (scheme names and the `sitemap:` directive key). -/
def lower (cs : Str) : Str := cs.map Char.toLower

/-- Python `str.strip()`: remove whitespace from both ends. -/
def strip (cs : Str) : Str :=
  ((cs.dropWhile Char.isWhitespace).reverse.dropWhile Char.isWhitespace).reverse

/-- Python `str.splitlines()`: split at `\r\n`, `\r` or `\n`, producing no
trailing empty line. -/
def splitlinesAux : Str → Str → List Str
  | [], acc => if acc.isEmpty then [] else [acc.reverse]
  | '\r' :: '\n' :: rest, acc => acc.reverse :: splitlinesAux rest []
  | '\r' :: rest, acc => acc.reverse :: splitlinesAux rest []
  | '\n' :: rest, acc => acc.reverse :: splitlinesAux rest []
  | c :: rest, acc => splitlinesAux rest (c :: acc)

/-- Python `str.splitlines()`. -/
def splitlines (cs : Str) : List Str := splitlinesAux cs []

/-- Python `s.split(sep)` for a single-character separator. -/
def splitOn (sep : Char) : Str → List Str
  | [] => [[]]
  | c :: rest =>
    if c = sep then [] :: splitOn sep rest
    else
      match splitOn sep rest with
      | [] => [[c]]
      | p :: ps => (c :: p) :: ps

/-- Python `sep.join(parts)` for a single-character separator. -/
def joinWith (sep : Char) : List Str → Str
  | [] => []
  | [p] => p
  | p :: q :: rest => p ++ sep :: joinWith sep (q :: rest)

/-- Python `s.endswith(suffix)`. -/
def endswith (s sfx : Str) : Bool := sfx.isSuffixOf s

/-- Characters CPython's `urllib.parse` accepts inside a URL scheme
(`scheme_chars`: ASCII letters, digits, `+`, `-`, `.`). -/
def schemeChar (c : Char) : Bool :=
  c.isAlpha || c.isDigit || c = '+' || c = '-' || c = '.'

/-- The result of `urllib.parse.urlsplit`: the five components
`(scheme, netloc, path, query, fragment)`. -/
structure SplitResult where
  scheme : Str
  netloc : Str
  path : Str
  query : Str
  fragment : Str
deriving DecidableEq

/-- Scheme recognition step of CPython `urlsplit`: if the text up to the
first `:` is a non-empty run of scheme characters starting with an ASCII
letter, it is the (lowercased) scheme and the remainder follows the colon;
otherwise there is no scheme and the default applies. -/
def parseScheme (dflt : Str) (url : Str) : Str × Str :=
  match splitOnceAt ':' url with
  | none => (dflt, url)
  | some pr =>
    match pr.1 with
    | [] => (dflt, url)
    | c :: cs =>
      if c.isAlpha && (c :: cs).all schemeChar then (lower (c :: cs), pr.2)
      else (dflt, url)

/-- `_splitnetloc` of CPython `urllib.parse`: the netloc extends up to the
next `/`, `?` or `#`. -/
def splitNetloc : Str → Str × Str
  | [] => ([], [])
  | c :: rest =>
    if c = '/' || c = '?' || c = '#' then ([], c :: rest)
    else
      let pr := splitNetloc rest
      (c :: pr.1, pr.2)

/-- CPython `urllib.parse.urlsplit(url, scheme=dflt)` (with
`allow_fragments=True`): tab, CR and LF are removed, then scheme, netloc,
fragment and query are split off in that order.  The bracketed-IPv6
validation (which can raise `ValueError`) is not modelled; none of the
scripts' URLs use brackets. -/
def urlsplitD (dflt : Str) (url : Str) : SplitResult :=
  let url := url.filter (fun c => c ≠ '\t' && c ≠ '\r' && c ≠ '\n')
  let sp := parseScheme dflt url
  let scheme := sp.1
  let np :=
    match sp.2 with
    | '/' :: '/' :: rest => splitNetloc rest
    | other => ([], other)
  let fp :=
    match splitOnceAt '#' np.2 with
    | some pr => (pr.1, pr.2)
    | none => (np.2, [])
  let qp :=
    match splitOnceAt '?' fp.1 with
    | some pr => (pr.1, pr.2)
    | none => (fp.1, [])
  ⟨scheme, np.1, qp.1, qp.2, fp.2⟩

/-- CPython `urllib.parse.urlsplit(url)` with the default empty scheme. -/
def urlsplit (url : Str) : SplitResult := urlsplitD [] url

/-- CPython `urllib.parse.urlunsplit`. -/
def urlunsplit (r : SplitResult) : Str :=
  let u :=
    if !r.netloc.isEmpty || r.path.take 2 = str "//" then
      let u1 := if !r.path.isEmpty && r.path.take 1 ≠ str "/" then '/' :: r.path else r.path
      str "//" ++ r.netloc ++ u1
    else r.path
  let u := if r.scheme.isEmpty then u else r.scheme ++ ':' :: u
  let u := if r.query.isEmpty then u else u ++ '?' :: r.query
  if r.fragment.isEmpty then u else u ++ '#' :: r.fragment

/-- Schemes for which CPython `urljoin` performs relative resolution
(`uses_relative`); only the entries relevant to web URLs are listed. -/
def usesRelative : List Str :=
  [str "", str "ftp", str "http", str "https", str "file", str "ws", str "wss"]

/-- Schemes for which CPython `urljoin` inherits the base netloc
(`uses_netloc`); only the entries relevant to web URLs are listed. -/
def usesNetloc : List Str :=
  [str "", str "ftp", str "http", str "https", str "file", str "ws", str "wss",
   str "git", str "rsync", str "nfs"]

/-- Dot-segment resolution loop of CPython `urljoin`: `..` pops, `.` is
dropped, anything else is pushed. -/
def resolveSegs (segs : List Str) : List Str :=
  segs.foldl
    (fun acc seg =>
      if seg = str ".." then acc.dropLast
      else if seg = str "." then acc
      else acc ++ [seg]) []

/-- CPython `urllib.parse.urljoin(base, url)` (for URLs without the
legacy `;parameters` component, which none of the scripts' URLs use). -/
def urljoin (base url : Str) : Str :=
  if base.isEmpty then url
  else if url.isEmpty then base
  else
    let b := urlsplit base
    let r := urlsplitD b.scheme url
    if r.scheme ≠ b.scheme || !usesRelative.contains r.scheme then url
    else
      let netlocKeep := usesNetloc.contains r.scheme
      if netlocKeep && !r.netloc.isEmpty then
        urlunsplit ⟨r.scheme, r.netloc, r.path, r.query, r.fragment⟩
      else
        let netloc := if netlocKeep then b.netloc else r.netloc
        if r.path.isEmpty then
          let query := if r.query.isEmpty then b.query else r.query
          urlunsplit ⟨r.scheme, netloc, b.path, query, r.fragment⟩
        else
          let segs :=
            if r.path.take 1 = str "/" then splitOn '/' r.path
            else
              let baseParts := splitOn '/' b.path
              let baseParts :=
                if baseParts.getLast? = some [] then baseParts else baseParts.dropLast
              let segs0 := baseParts ++ splitOn '/' r.path
              match segs0 with
              | [] => []
              | s0 :: tl =>
                match tl.getLast? with
                | none => [s0]
                | some lastSeg =>
                  s0 :: ((tl.dropLast.filter (fun seg => !seg.isEmpty)) ++ [lastSeg])
          let resolved := resolveSegs segs
          let resolved :=
            if segs.getLast? = some (str ".") || segs.getLast? = some (str "..") then
              resolved ++ [[]]
            else resolved
          let joined := joinWith '/' resolved
          urlunsplit ⟨r.scheme, netloc, if joined.isEmpty then str "/" else joined,
                      r.query, r.fragment⟩

/-!  ## Pattern classification (`in_scope` in all three discovery scripts)

A compiled include/exclude rule is modelled as the boolean outcome of
`compiled.search(text)`; the entity hint attached to an include rule is a
string.  `read_patterns` compiles the workbook's patterns with `re.I` —
the workbook I/O itself is external and not modelled. -/

/-- The behaviour of one compiled regex: does `search` find a match in the
given text? -/
abbrev Pattern := Str → Bool

/-- An entity hint string attached to an include rule. -/
abbrev Ent := Str

/-- The include-rule scan of `in_scope`: first matching rule wins, in
configuration order (`for pat, hint in allow: if pat.search(path): ...`). -/
def scanAllow (path : Str) : List (Pattern × Ent) → Bool × Option Ent
  | [] => (false, none)
  | pr :: rest =>
    if pr.1 path then (true, some pr.2) else scanAllow path rest

/-- `in_scope(url, allow, block)` of the discovery scripts: split off the
URL's path, veto if any exclude rule matches it, otherwise take the first
matching include rule's hint. -/
def in_scope (url : Url) (allow : List (Pattern × Ent)) (block : List Pattern) :
    Bool × Option Ent :=
  let path := (urlsplit url).path
  if block.any (fun b => b path) then (false, none)
  else scanAllow path allow

/-- `same_domain(base, url)` of the discovery scripts:
`urlsplit(url).netloc.endswith(urlsplit(base).netloc)`. -/
def same_domain (base url : Url) : Bool :=
  endswith (urlsplit url).netloc (urlsplit base).netloc

/-!  ## Sitemap resolution (`robots_sitemaps`, `parse_sitemap`) -/

/-- A `cli.get` outcome as `robots_sitemaps` observes it: a response with a
status code and a text body, or an exception raised by the request. -/
inductive TextFetch where
  | resp (status : Nat) (text : Str)
  | exn
deriving DecidableEq

/-- The root element of a fetched sitemap document once parsed:
a `<sitemapindex>` whose `<sitemap><loc>` entries name child sitemaps, a
`<urlset>` whose `<url><loc>` entries name leaf URLs, or some other tag. -/
inductive XmlRoot where
  | sitemapindex (children : List Url)
  | urlset (locs : List Url)
  | otherTag
deriving DecidableEq

/-- A `cli.get` outcome as `parse_sitemap` observes it: a response carrying
a status code and the XML parse of its content (`none` when
`safe_fromstring` raises on malformed XML), or an exception raised by the
request itself. -/
inductive SmFetch where
  | resp (status : Nat) (doc : Option XmlRoot)
  | exn
deriving DecidableEq

/-- `robots_sitemaps(base, cli)`: fetch `robots.txt`; on a 200 response
collect, line by line, the value of every `Sitemap:` directive
(case-insensitive key, value stripped); any exception or non-200 status
yields the empty list.  The response is passed in directly since the robots
URL is fixed by the base. -/
def robots_sitemaps (robots : TextFetch) : List Url :=
  match robots with
  | TextFetch.exn => []
  | TextFetch.resp status text =>
    if status = 200 then
      (splitlines text).foldl
        (fun acc line0 =>
          let line := strip line0
          if (str "sitemap:").isPrefixOf (lower line) then
            match splitOnceAt ':' line with
            | some pr => acc ++ [strip pr.2]
            | none => acc
          else acc) []
    else []

/-- `parse_sitemap(cli, url)`: fetch the sitemap; on non-200, parse failure
or a request exception return the empty list; on a `<sitemapindex>` recurse
into every child `<sitemap><loc>` in order, concatenating the results; on a
`<urlset>` return its `<url><loc>` entries.  The `fuel` argument bounds the
recursion depth, standing for Python's call stack (exhaustion of which is
swallowed by the function's own `except` and yields an empty branch). -/
def parse_sitemap (cli : Url → SmFetch) : Nat → Url → List Url
  | 0, _ => []
  | Nat.succ fuel, u =>
    match cli u with
    | SmFetch.exn => []
    | SmFetch.resp status doc =>
      if status ≠ 200 then []
      else
        match doc with
        | none => []
        | some (XmlRoot.sitemapindex children) =>
          (children.map (fun c => parse_sitemap cli fuel c)).flatten
        | some (XmlRoot.urlset locs) => locs
        | some XmlRoot.otherTag => []

/-!  ## The HTTP discovery engine (`discover_all` in `discovery_all.py`) -/

/-- The parse of a fetched HTML page, as `discover_all` reads it: the
`//link[@rel='canonical']/@href` attribute list and the `//a[@href]/@href`
attribute list in document order. -/
structure Page where
  canHrefs : List Url
  hrefs : List Url
deriving DecidableEq

/-- A `cli.get` outcome as `discover_all` observes it.  `served` is the
final URL after redirects (`r.url`, since the client follows redirects);
the script never reads it, but it identifies which resource actually
answered.  `exn` covers an exception raised by the request or by parsing
the body. -/
inductive PageFetch where
  | resp (status : Nat) (served : Url) (page : Page)
  | exn
deriving DecidableEq

/-- `canonical_url(doc, url)` of `discovery_all.py`: the first
`link[rel=canonical]` href resolved against `url`, else `url` itself. -/
def canonical_url (canHrefs : List Url) (url : Url) : Url :=
  match canHrefs with
  | [] => url
  | c :: _ => urljoin url c

/-- Python `dict` assignment `m[k] = v` on an association list: overwrite
the existing entry for `k`, or append a new one. -/
def updateAssoc (m : List (Url × Option Ent)) (k : Url) (v : Option Ent) :
    List (Url × Option Ent) :=
  if m.any (fun pr => pr.1 = k) then
    m.map (fun pr => if pr.1 = k then (k, v) else pr)
  else m ++ [(k, v)]

/-- Observable events of one BFS iteration: a fetch attempt of a dequeued
URL (`ok` records whether it completed, i.e. status 200 and body parsed),
and the politeness delay `time.sleep(throttle)`. -/
inductive Ev where
  | fetch (u : Url) (ok : Bool)
  | sleep
deriving DecidableEq

/-- The mutable state of the BFS loops: the work queue `q` of
`(url, depth)` pairs, the visited set `seen` and the hit map `hits`. -/
structure DAState where
  queue : List (Url × Nat)
  seen : List Url
  hits : List (Url × Option Ent)

/-- Python `"#" in nxt` / `nxt.split("#", 1)[0]`: drop a fragment. -/
def fragStrip (u : Url) : Url :=
  match splitOnceAt '#' u with
  | some pr => pr.1
  | none => u

/-- The body of `discover_all`'s `while` loop for a dequeued `(url, d)`
that passed the visited/depth guard, performed on state `s` whose queue
tail is `rest`.  Returns the successor state and the events of this
iteration.  Note the source's own quirks, kept as written: on a non-200
status or an exception the iteration `continue`s, skipping the throttle
sleep; the canonical URL is computed from the *requested* `url` (the
response's final URL `served` is never consulted); the canonical form is
added to `seen`; children are resolved against the canonical URL,
fragment-stripped, and enqueued when same-domain and unseen. -/
def da_visit (cli : Url → PageFetch) (base : Url) (allow : List (Pattern × Ent))
    (block : List Pattern) (url : Url) (d : Nat) (s : DAState)
    (rest : List (Url × Nat)) : DAState × List Ev :=
  let seen1 := s.seen ++ [url]
  match cli url with
  | PageFetch.exn => (⟨rest, seen1, s.hits⟩, [Ev.fetch url false])
  | PageFetch.resp status _served page =>
    if status ≠ 200 then (⟨rest, seen1, s.hits⟩, [Ev.fetch url false])
    else
      let can := canonical_url page.canHrefs url
      let seen2 := if can ∈ seen1 then seen1 else seen1 ++ [can]
      let hits2 :=
        match in_scope can allow block with
        | (true, ent) => updateAssoc s.hits can ent
        | (false, _) => s.hits
      let children :=
        (page.hrefs.map (fun h => fragStrip (urljoin can (strip h)))).filter
          (fun n => same_domain base n && !(decide (n ∈ seen2)))
      (⟨rest ++ children.map (fun c => (c, d + 1)), seen2, hits2⟩,
       [Ev.fetch url true, Ev.sleep])

/-- The shared `while q:` skeleton of the discovery loops: dequeue, discard
if already visited or beyond the depth bound, otherwise run the
engine-specific iteration body `visit`.  `fuel` bounds the number of
iterations (the Python loop terminates only because the reachable URL space
is finite). -/
def bfs_run (visit : Url → Nat → DAState → List (Url × Nat) → DAState × List Ev)
    (maxd : Nat) : Nat → DAState → DAState × List Ev
  | 0, s => (s, [])
  | Nat.succ fuel, s =>
    match s.queue with
    | [] => (s, [])
    | (url, d) :: rest =>
      if url ∈ s.seen ∨ maxd < d then
        bfs_run visit maxd fuel ⟨rest, s.seen, s.hits⟩
      else
        let p := visit url d s rest
        let r := bfs_run visit maxd fuel p.1
        (r.1, p.2 ++ r.2)

/-- `discover_all(base, seeds, allow, block, max_depth, throttle)` of
`discovery_all.py`: resolve the robots sitemaps and record every
same-domain in-scope sitemap URL directly, then BFS from the same-domain
seeds at depth 0.  Returns the hit map and the fetch/sleep event trace of
the BFS.  `robots` is the robots.txt response, `smCli` the client's view of
sitemap URLs and `cli` its view of page URLs. -/
def discover_all (robots : TextFetch) (smCli : Url → SmFetch) (smFuel : Nat)
    (cli : Url → PageFetch) (base : Url) (seeds : List Url)
    (allow : List (Pattern × Ent)) (block : List Pattern)
    (max_depth : Nat) (fuel : Nat) : List (Url × Option Ent) × List Ev :=
  let smHits :=
    ((robots_sitemaps robots).map (fun sm => parse_sitemap smCli smFuel sm)).flatten.foldl
      (fun h u =>
        if same_domain base u then
          match in_scope u allow block with
          | (true, ent) => updateAssoc h u ent
          | (false, _) => h
        else h) []
  let q0 := (seeds.filter (fun sd => same_domain base sd)).map (fun sd => (sd, 0))
  let r := bfs_run (da_visit cli base allow block) max_depth fuel ⟨q0, [], smHits⟩
  (r.1.hits, r.2)

/-!  ## The CDP discovery engine (`discover_over_cdp` in `discovery_cdp.py`) -/

/-- A `page.goto` outcome as `discover_over_cdp` observes it: the browser
lands on `pageUrl` (`page.url`, after any redirects), exposing the optional
canonical link href and the absolute hrefs of all anchors; or navigation
raises. -/
inductive CdpFetch where
  | nav (pageUrl : Url) (canHref : Option Url) (hrefs : List Url)
  | exn
deriving DecidableEq

/-- `canonical_url(page_url, canonical_href)` of `discovery_cdp.py` /
`discovery_playwright.py`: a truthy (present and non-empty) canonical href
is resolved against the page URL, otherwise the page URL stands. -/
def canonical_url_cdp (page_url : Url) (canonical_href : Option Url) : Url :=
  match canonical_href with
  | some h => if h.isEmpty then page_url else urljoin page_url h
  | none => page_url

/-- The body of `discover_over_cdp`'s `while` loop for a dequeued
`(url, d)` past the guard.  The canonical URL is based on `page.url` — the
URL actually served after redirects.  The browser's anchor hrefs are
already absolute: empty ones are skipped, fragments stripped, and
same-domain unseen ones enqueued.  On a navigation exception the iteration
`continue`s, skipping the throttle sleep.  Unlike `discover_all`, the
canonical form is never added to `seen`. -/
def cdp_visit (nav : Url → CdpFetch) (base : Url) (allow : List (Pattern × Ent))
    (block : List Pattern) (url : Url) (d : Nat) (s : DAState)
    (rest : List (Url × Nat)) : DAState × List Ev :=
  let seen1 := s.seen ++ [url]
  match nav url with
  | CdpFetch.exn => (⟨rest, seen1, s.hits⟩, [Ev.fetch url false])
  | CdpFetch.nav pageUrl canHref hrefs =>
    let can := canonical_url_cdp pageUrl canHref
    let hits2 :=
      match in_scope can allow block with
      | (true, ent) => updateAssoc s.hits can ent
      | (false, _) => s.hits
    let children :=
      ((hrefs.filter (fun h => !h.isEmpty)).map fragStrip).filter
        (fun n => same_domain base n && !(decide (n ∈ seen1)))
    (⟨rest ++ children.map (fun c => (c, d + 1)), seen1, hits2⟩,
     [Ev.fetch url true, Ev.sleep])

/-- `discover_over_cdp(base, seeds, allow, block, depth, throttle)` of
`discovery_cdp.py`, from the seeding of the queue onwards (the initial
`page.goto(base)` before the loop records nothing).  Returns the hit map
and the BFS event trace. -/
def discover_over_cdp (nav : Url → CdpFetch) (base : Url) (seeds : List Url)
    (allow : List (Pattern × Ent)) (block : List Pattern)
    (depth : Nat) (fuel : Nat) : List (Url × Option Ent) × List Ev :=
  let q0 := (seeds.filter (fun sd => same_domain base sd)).map (fun sd => (sd, 0))
  let r := bfs_run (cdp_visit nav base allow block) depth fuel ⟨q0, [], []⟩
  (r.1.hits, r.2)

/-!  ## The generic crawler (`crawler.py`) -/

/-- The parse of a page as `scrape_page` reads it: the `<title>` string (if
any), the `<p>` texts, the `<img src>` attributes and the `<a href>`
attributes. -/
structure CrawlPage where
  title : Option Str
  paragraphs : List Str
  imgSrcs : List Url
  rawHrefs : List Url
deriving DecidableEq

/-- A `requests.get` outcome as `scrape_page` observes it. -/
inductive CrawlFetch where
  | resp (status : Nat) (page : CrawlPage)
  | exn
deriving DecidableEq

/-- The dictionary `scrape_page` returns for a page. -/
structure PageData where
  url : Url
  title : Str
  content : Str
  images : List Url
  all_links : List Url
deriving DecidableEq

/-- `scrape_page(url, domain)` of `crawler.py`: on a non-200 status or an
exception return `(None, [])`; otherwise build the page record and the list
of same-domain links not yet visited.  Image downloading is a filesystem
side effect with no influence on the returned data and is not modelled.
`visited` is the value of the module-global `visited` set at call time. -/
def scrape_page (fetch : Url → CrawlFetch) (url : Url) (domain : Str)
    (visited : List Url) : Option PageData × List Url :=
  match fetch url with
  | CrawlFetch.exn => (none, [])
  | CrawlFetch.resp status page =>
    if status ≠ 200 then (none, [])
    else
      let title :=
        match page.title with
        | some t => strip t
        | none => str "No Title"
      let content := joinWith ' ' (page.paragraphs.map strip)
      let images := page.imgSrcs.map (fun srcv => urljoin url srcv)
      let all_links := page.rawHrefs.map (fun h => urljoin url h)
      let links := all_links.filter
        (fun l => decide ((urlsplit l).netloc = domain) && !(decide (l ∈ visited)))
      (some ⟨url, title, content, images, all_links⟩, links)

/-- The observable outcome of a `crawl` run: the scraped results, the value
of the module-global `visited` set afterwards, and the URLs passed to
`scrape_page` (each being one `requests.get` of a page). -/
structure CrawlOut where
  results : List PageData
  visited : List Url
  fetched : List Url
deriving DecidableEq

/-- The `while` loop of `crawl`: stop when the queue is empty or enough
results were collected; skip visited or too-deep entries; otherwise mark
visited, scrape, and on success record the result and enqueue the unvisited
links at depth + 1.  The unconditional `time.sleep(1)` at the bottom of the
loop is not traced here (`crawler.py` is not cited for the politeness
claim).  `fuel` bounds the iteration count. -/
def crawl_loop (fetch : Url → CrawlFetch) (domain : Str)
    (max_pages max_depth : Nat) :
    Nat → List (Url × Nat) → List Url → List PageData → CrawlOut
  | 0, _, visited, results => ⟨results, visited, []⟩
  | Nat.succ fuel, to_visit, visited, results =>
    if max_pages ≤ results.length then ⟨results, visited, []⟩
    else
      match to_visit with
      | [] => ⟨results, visited, []⟩
      | (url, d) :: rest =>
        if url ∈ visited ∨ max_depth < d then
          crawl_loop fetch domain max_pages max_depth fuel rest visited results
        else
          let visited1 := visited ++ [url]
          let pr := scrape_page fetch url domain visited1
          match pr.1 with
          | none =>
            let out := crawl_loop fetch domain max_pages max_depth fuel rest visited1 results
            ⟨out.results, out.visited, url :: out.fetched⟩
          | some pd =>
            let q2 := rest ++
              (pr.2.filter (fun l => !(decide (l ∈ visited1)))).map (fun l => (l, d + 1))
            let out := crawl_loop fetch domain max_pages max_depth fuel q2 visited1
              (results ++ [pd])
            ⟨out.results, out.visited, url :: out.fetched⟩

/-- `crawl(start_url, max_pages, max_depth)` of `crawler.py`.  The script's
`visited` set is a module-level global (line 11), created once at import
and never reset by `crawl`; its value at the moment of the call is passed
here explicitly as `visited0`, and the run's final value is returned in the
output so that a subsequent call in the same process can be modelled by
feeding it back in. -/
def crawl (fetch : Url → CrawlFetch) (visited0 : List Url) (start_url : Url)
    (max_pages max_depth fuel : Nat) : CrawlOut :=
  let domain := (urlsplit start_url).netloc
  crawl_loop fetch domain max_pages max_depth fuel [(start_url, 0)] visited0 []

/-!  ## Derived observations used by the theorems -/

/-- The URLs of the fetch attempts in an event trace, in order. -/
def fetchUrls : List Ev → List Url
  | [] => []
  | Ev.fetch u _ :: rest => u :: fetchUrls rest
  | Ev.sleep :: rest => fetchUrls rest

/-- The keys of a hit map. -/
def keysOf (m : List (Url × Option Ent)) : List Url := m.map Prod.fst

/-- An event trace in which every completed fetch is immediately followed
by the politeness sleep, every failed fetch is immediately followed by the
next iteration (no sleep), and sleeps occur nowhere else. -/
inductive SleepOk : List Ev → Prop
  | nil : SleepOk []
  | fail (u : Url) (rest : List Ev) : SleepOk rest →
      SleepOk (Ev.fetch u false :: rest)
  | done (u : Url) (rest : List Ev) : SleepOk rest →
      SleepOk (Ev.fetch u true :: Ev.sleep :: rest)

/-- The property claimed by the spec for the politeness delay: between any
fetch attempt and the next fetch attempt a sleep occurs (no two fetch
events are adjacent in the trace). -/
def delayBetweenFetches : List Ev → Bool
  | Ev.fetch _ _ :: Ev.fetch _ _ :: _ => false
  | _ :: rest => delayBetweenFetches rest
  | [] => true

/-!  ## Helper lemmas -/

theorem fetchUrls_append (a b : List Ev) :
    fetchUrls (a ++ b) = fetchUrls a ++ fetchUrls b := by
  induction a with
  | nil => rfl
  | cons e rest ih => cases e <;> simp [fetchUrls, ih]

theorem scanAllow_eq_find? (path : Str) (allow : List (Pattern × Ent)) :
    scanAllow path allow =
      match allow.find? (fun pr => pr.1 path) with
      | some pr => (true, some pr.2)
      | none => (false, none) := by
  induction allow with
  | nil => rfl
  | cons hd tl ih =>
    by_cases h : hd.1 path = true
    · simp [scanAllow, h, List.find?_cons_of_pos]
    · rw [Bool.not_eq_true] at h
      simp [scanAllow, h, List.find?_cons_of_neg]
      exact ih

theorem scanAllow_congr (p1 p2 : Str) (allow : List (Pattern × Ent))
    (h : ∀ pr ∈ allow, pr.1 p1 = pr.1 p2) :
    scanAllow p1 allow = scanAllow p2 allow := by
  induction allow with
  | nil => rfl
  | cons hd tl ih =>
    have hhd := h hd (List.mem_cons_self hd tl)
    simp only [scanAllow, hhd]
    have htl := ih (fun pr hpr => h pr (List.mem_cons_of_mem hd hpr))
    rw [htl]

theorem any_congr_mem (l : List Pattern) (p1 p2 : Str)
    (h : ∀ b ∈ l, b p1 = b p2) :
    l.any (fun b => b p1) = l.any (fun b => b p2) := by
  induction l with
  | nil => rfl
  | cons hd tl ih =>
    have hhd := h hd (List.mem_cons_self hd tl)
    simp only [List.any_cons, hhd]
    rw [ih (fun b hb => h b (List.mem_cons_of_mem hd hb))]

theorem keysOf_updateAssoc_nodup (m : List (Url × Option Ent)) (k : Url)
    (v : Option Ent) (h : (keysOf m).Nodup) :
    (keysOf (updateAssoc m k v)).Nodup := by
  by_cases hmem : m.any (fun pr => pr.1 = k) = true
  · have hkeys : keysOf (m.map (fun pr => if pr.1 = k then (k, v) else pr)) = keysOf m := by
      simp only [keysOf, List.map_map]
      congr 1
      funext pr
      by_cases h2 : pr.1 = k <;> simp [h2]
    simpa [updateAssoc, hmem, hkeys] using h
  · have hnot : k ∉ keysOf m := by
      intro hk
      rcases List.mem_map.mp hk with ⟨pr, hpr, hfst⟩
      have hany : m.any (fun pr => pr.1 = k) = true := by
        refine List.any_eq_true.mpr ⟨pr, hpr, ?_⟩
        simp [hfst]
      exact hmem hany
    rw [Bool.not_eq_true] at hmem
    have : keysOf (m ++ [(k, v)]) = keysOf m ++ [k] := by simp [keysOf]
    simp only [updateAssoc, hmem, Bool.false_eq_true, if_false, this]
    rw [List.nodup_append]
    refine ⟨h, List.nodup_singleton k, ?_⟩
    intro a ha hak
    rcases List.mem_singleton.mp hak with rfl
    exact hnot ha

theorem foldl_keys_nodup (f : List (Url × Option Ent) → Url → List (Url × Option Ent))
    (hf : ∀ m u, (keysOf m).Nodup → (keysOf (f m u)).Nodup) :
    ∀ (l : List Url) (m : List (Url × Option Ent)),
      (keysOf m).Nodup → (keysOf (l.foldl f m)).Nodup := by
  intro l
  induction l with
  | nil => intro m hm; exact hm
  | cons hd tl ih =>
    intro m hm
    simp only [List.foldl_cons]
    exact ih _ (hf m hd hm)

/-!  ### Properties of one `discover_all` loop iteration -/

theorem da_visit_seen (cli : Url → PageFetch) (base : Url)
    (allow : List (Pattern × Ent)) (block : List Pattern) (url : Url) (d : Nat)
    (s : DAState) (rest : List (Url × Nat)) :
    ∀ u, (u ∈ s.seen ∨ u = url) →
      u ∈ (da_visit cli base allow block url d s rest).1.seen := by
  intro u hu
  have hu1 : u ∈ s.seen ++ [url] := by
    rcases hu with hu | rfl
    · exact List.mem_append_left _ hu
    · exact List.mem_append_right _ (List.mem_singleton.mpr rfl)
  cases h : cli url with
  | resp status served page =>
    simp only [da_visit, h]
    by_cases hs : status ≠ 200
    · simpa [hs] using hu1
    · simp only [hs, if_false]
      by_cases hc : canonical_url page.canHrefs url ∈ s.seen ++ [url]
      · simpa [hc] using hu1
      · have h3 : u ∈ (s.seen ++ [url]) ++ [canonical_url page.canHrefs url] :=
          List.mem_append_left _ hu1
        simpa [hc] using h3
  | exn => simpa [da_visit, h] using hu1

theorem da_visit_trace (cli : Url → PageFetch) (base : Url)
    (allow : List (Pattern × Ent)) (block : List Pattern) (url : Url) (d : Nat)
    (s : DAState) (rest : List (Url × Nat)) :
    (da_visit cli base allow block url d s rest).2 = [Ev.fetch url false] ∨
    (da_visit cli base allow block url d s rest).2 = [Ev.fetch url true, Ev.sleep] := by
  cases h : cli url with
  | resp status served page =>
    by_cases hs : status ≠ 200
    · left; simp [da_visit, h, hs]
    · right; simp [da_visit, h, hs]
  | exn => left; simp [da_visit, h]

theorem da_visit_fetchUrls (cli : Url → PageFetch) (base : Url)
    (allow : List (Pattern × Ent)) (block : List Pattern) (url : Url) (d : Nat)
    (s : DAState) (rest : List (Url × Nat)) :
    fetchUrls (da_visit cli base allow block url d s rest).2 = [url] := by
  rcases da_visit_trace cli base allow block url d s rest with h | h <;>
    simp [h, fetchUrls]

theorem da_visit_keys_nodup (cli : Url → PageFetch) (base : Url)
    (allow : List (Pattern × Ent)) (block : List Pattern) (url : Url) (d : Nat)
    (s : DAState) (rest : List (Url × Nat))
    (h : (keysOf s.hits).Nodup) :
    (keysOf (da_visit cli base allow block url d s rest).1.hits).Nodup := by
  cases hc : cli url with
  | resp status served page =>
    simp only [da_visit, hc]
    by_cases hs : status ≠ 200
    · simpa [hs] using h
    · simp only [hs, if_false]
      rcases hin : in_scope (canonical_url page.canHrefs url) allow block with ⟨ok, ent⟩
      cases ok
      · simpa [hin] using h
      · simpa [hin] using keysOf_updateAssoc_nodup s.hits _ ent h
  | exn => simpa [da_visit, hc] using h

/-!  ### Properties of one `discover_over_cdp` loop iteration -/

theorem cdp_visit_seen (nav : Url → CdpFetch) (base : Url)
    (allow : List (Pattern × Ent)) (block : List Pattern) (url : Url) (d : Nat)
    (s : DAState) (rest : List (Url × Nat)) :
    ∀ u, (u ∈ s.seen ∨ u = url) →
      u ∈ (cdp_visit nav base allow block url d s rest).1.seen := by
  intro u hu
  have hu1 : u ∈ s.seen ++ [url] := by
    rcases hu with hu | rfl
    · exact List.mem_append_left _ hu
    · exact List.mem_append_right _ (List.mem_singleton.mpr rfl)
  cases h : nav url with
  | nav pageUrl canHref hrefs => simpa [cdp_visit, h] using hu1
  | exn => simpa [cdp_visit, h] using hu1

theorem cdp_visit_trace (nav : Url → CdpFetch) (base : Url)
    (allow : List (Pattern × Ent)) (block : List Pattern) (url : Url) (d : Nat)
    (s : DAState) (rest : List (Url × Nat)) :
    (cdp_visit nav base allow block url d s rest).2 = [Ev.fetch url false] ∨
    (cdp_visit nav base allow block url d s rest).2 = [Ev.fetch url true, Ev.sleep] := by
  cases h : nav url with
  | nav pageUrl canHref hrefs => right; simp [cdp_visit, h]
  | exn => left; simp [cdp_visit, h]

theorem cdp_visit_fetchUrls (nav : Url → CdpFetch) (base : Url)
    (allow : List (Pattern × Ent)) (block : List Pattern) (url : Url) (d : Nat)
    (s : DAState) (rest : List (Url × Nat)) :
    fetchUrls (cdp_visit nav base allow block url d s rest).2 = [url] := by
  rcases cdp_visit_trace nav base allow block url d s rest with h | h <;>
    simp [h, fetchUrls]

theorem cdp_visit_keys_nodup (nav : Url → CdpFetch) (base : Url)
    (allow : List (Pattern × Ent)) (block : List Pattern) (url : Url) (d : Nat)
    (s : DAState) (rest : List (Url × Nat))
    (h : (keysOf s.hits).Nodup) :
    (keysOf (cdp_visit nav base allow block url d s rest).1.hits).Nodup := by
  cases hc : nav url with
  | nav pageUrl canHref hrefs =>
    simp only [cdp_visit, hc]
    rcases hin : in_scope (canonical_url_cdp pageUrl canHref) allow block with ⟨ok, ent⟩
    cases ok
    · simpa [hin] using h
    · simpa [hin] using keysOf_updateAssoc_nodup s.hits _ ent h
  | exn => simpa [cdp_visit, hc] using h

/-!  ### Properties of the shared BFS loop -/

theorem bfs_run_seen_mono
    (visit : Url → Nat → DAState → List (Url × Nat) → DAState × List Ev) (maxd : Nat)
    (hv : ∀ url d s rest, ∀ u, (u ∈ DAState.seen s ∨ u = url) →
      u ∈ (visit url d s rest).1.seen) :
    ∀ fuel s, ∀ u ∈ DAState.seen s, u ∈ (bfs_run visit maxd fuel s).1.seen := by
  intro fuel
  induction fuel with
  | zero => intro s u hu; simpa [bfs_run] using hu
  | succ n ih =>
    intro s u hu
    obtain ⟨q, seen, hits⟩ := s
    rcases q with _ | ⟨⟨url, d⟩, rest⟩
    · simpa [bfs_run] using hu
    · by_cases hg : url ∈ seen ∨ maxd < d
      · have := ih ⟨rest, seen, hits⟩ u hu
        simpa [bfs_run, hg] using this
      · have h1 := hv url d ⟨(url, d) :: rest, seen, hits⟩ rest u (Or.inl hu)
        have := ih (visit url d ⟨(url, d) :: rest, seen, hits⟩ rest).1 u h1
        simpa [bfs_run, hg] using this

theorem bfs_run_fetch_fresh
    (visit : Url → Nat → DAState → List (Url × Nat) → DAState × List Ev) (maxd : Nat)
    (hseen : ∀ url d s rest, ∀ u, (u ∈ DAState.seen s ∨ u = url) →
      u ∈ (visit url d s rest).1.seen)
    (htr : ∀ url d s rest, fetchUrls (visit url d s rest).2 = [url]) :
    ∀ fuel s, (∀ u ∈ fetchUrls (bfs_run visit maxd fuel s).2, u ∉ DAState.seen s) ∧
      (fetchUrls (bfs_run visit maxd fuel s).2).Nodup := by
  intro fuel
  induction fuel with
  | zero => intro s; simp [bfs_run, fetchUrls]
  | succ n ih =>
    intro s
    obtain ⟨q, seen, hits⟩ := s
    rcases q with _ | ⟨⟨url, d⟩, rest⟩
    · simp [bfs_run, fetchUrls]
    · by_cases hg : url ∈ seen ∨ maxd < d
      · simpa [bfs_run, hg] using ih ⟨rest, seen, hits⟩
      · have hnext := ih (visit url d ⟨(url, d) :: rest, seen, hits⟩ rest).1
        have hmem : url ∈ (visit url d ⟨(url, d) :: rest, seen, hits⟩ rest).1.seen :=
          hseen url d ⟨(url, d) :: rest, seen, hits⟩ rest url (Or.inr rfl)
        constructor
        · intro u hu
          rw [show (bfs_run visit maxd (n + 1) ⟨(url, d) :: rest, seen, hits⟩).2 =
              (visit url d ⟨(url, d) :: rest, seen, hits⟩ rest).2 ++
              (bfs_run visit maxd n (visit url d ⟨(url, d) :: rest, seen, hits⟩ rest).1).2 by
              simp [bfs_run, hg]] at hu
          rw [fetchUrls_append, htr] at hu
          rcases List.mem_append.mp hu with hu | hu
          · rcases List.mem_singleton.mp hu with rfl
            exact fun hc => hg (Or.inl hc)
          · intro hc
            exact hnext.1 u hu
              (hseen url d ⟨(url, d) :: rest, seen, hits⟩ rest u (Or.inl hc))
        · rw [show (bfs_run visit maxd (n + 1) ⟨(url, d) :: rest, seen, hits⟩).2 =
              (visit url d ⟨(url, d) :: rest, seen, hits⟩ rest).2 ++
              (bfs_run visit maxd n (visit url d ⟨(url, d) :: rest, seen, hits⟩ rest).1).2 by
              simp [bfs_run, hg]]
          rw [fetchUrls_append, htr]
          rw [List.singleton_append, List.nodup_cons]
          exact ⟨fun hc => hnext.1 url hc hmem, hnext.2⟩

theorem bfs_run_sleepok
    (visit : Url → Nat → DAState → List (Url × Nat) → DAState × List Ev) (maxd : Nat)
    (hv : ∀ url d s rest, (visit url d s rest).2 = [Ev.fetch url false] ∨
      (visit url d s rest).2 = [Ev.fetch url true, Ev.sleep]) :
    ∀ fuel s, SleepOk (bfs_run visit maxd fuel s).2 := by
  intro fuel
  induction fuel with
  | zero =>
    intro s
    have : (bfs_run visit maxd 0 s).2 = [] := by simp [bfs_run]
    rw [this]; exact SleepOk.nil
  | succ n ih =>
    intro s
    obtain ⟨q, seen, hits⟩ := s
    rcases q with _ | ⟨⟨url, d⟩, rest⟩
    · have : (bfs_run visit maxd (n + 1) (⟨[], seen, hits⟩ : DAState)).2 = [] := by
        simp [bfs_run]
      rw [this]; exact SleepOk.nil
    · by_cases hg : url ∈ seen ∨ maxd < d
      · have : (bfs_run visit maxd (n + 1) ⟨(url, d) :: rest, seen, hits⟩).2 =
            (bfs_run visit maxd n ⟨rest, seen, hits⟩).2 := by simp [bfs_run, hg]
        rw [this]; exact ih _
      · have heq : (bfs_run visit maxd (n + 1) ⟨(url, d) :: rest, seen, hits⟩).2 =
            (visit url d ⟨(url, d) :: rest, seen, hits⟩ rest).2 ++
            (bfs_run visit maxd n (visit url d ⟨(url, d) :: rest, seen, hits⟩ rest).1).2 := by
          simp [bfs_run, hg]
        rw [heq]
        rcases hv url d ⟨(url, d) :: rest, seen, hits⟩ rest with h2 | h2 <;> rw [h2]
        · exact SleepOk.fail _ _ (ih _)
        · exact SleepOk.done _ _ (ih _)

theorem bfs_run_keys_nodup
    (visit : Url → Nat → DAState → List (Url × Nat) → DAState × List Ev) (maxd : Nat)
    (hv : ∀ url d s rest, (keysOf (DAState.hits s)).Nodup →
      (keysOf (visit url d s rest).1.hits).Nodup) :
    ∀ fuel s, (keysOf (DAState.hits s)).Nodup →
      (keysOf (bfs_run visit maxd fuel s).1.hits).Nodup := by
  intro fuel
  induction fuel with
  | zero => intro s hs; simpa [bfs_run] using hs
  | succ n ih =>
    intro s hs
    obtain ⟨q, seen, hits⟩ := s
    rcases q with _ | ⟨⟨url, d⟩, rest⟩
    · simpa [bfs_run] using hs
    · by_cases hg : url ∈ seen ∨ maxd < d
      · have := ih ⟨rest, seen, hits⟩ hs
        simpa [bfs_run, hg] using this
      · have h1 := hv url d ⟨(url, d) :: rest, seen, hits⟩ rest hs
        have := ih (visit url d ⟨(url, d) :: rest, seen, hits⟩ rest).1 h1
        simpa [bfs_run, hg] using this

/-!  ### Properties of the `crawl` loop -/

theorem crawl_loop_visited_mono (fetch : Url → CrawlFetch) (domain : Str)
    (max_pages max_depth : Nat) :
    ∀ fuel q visited results, ∀ u ∈ visited,
      u ∈ (crawl_loop fetch domain max_pages max_depth fuel q visited results).visited := by
  intro fuel
  induction fuel with
  | zero => intro q visited results u hu; simpa [crawl_loop] using hu
  | succ n ih =>
    intro q visited results u hu
    by_cases hp : max_pages ≤ results.length
    · simpa [crawl_loop, hp] using hu
    · rcases q with _ | ⟨⟨url, d⟩, rest⟩
      · simpa [crawl_loop, hp] using hu
      · by_cases hg : url ∈ visited ∨ max_depth < d
        · simpa [crawl_loop, hp, hg] using ih rest visited results u hu
        · have hu1 : u ∈ visited ++ [url] := List.mem_append_left _ hu
          cases hpr : (scrape_page fetch url domain (visited ++ [url])).1 with
          | none =>
            simpa [crawl_loop, hp, hg, hpr] using
              ih rest (visited ++ [url]) results u hu1
          | some pd =>
            simpa [crawl_loop, hp, hg, hpr] using
              ih (rest ++ (((scrape_page fetch url domain (visited ++ [url])).2.filter
                  (fun l => !(decide (l ∈ visited ++ [url])))).map (fun l => (l, d + 1))))
                (visited ++ [url]) (results ++ [pd]) u hu1

theorem crawl_loop_fetched_fresh (fetch : Url → CrawlFetch) (domain : Str)
    (max_pages max_depth : Nat) :
    ∀ fuel q visited results,
      (∀ u ∈ (crawl_loop fetch domain max_pages max_depth fuel q visited results).fetched,
        u ∉ visited) ∧
      (crawl_loop fetch domain max_pages max_depth fuel q visited results).fetched.Nodup := by
  intro fuel
  induction fuel with
  | zero => intro q visited results; simp [crawl_loop]
  | succ n ih =>
    intro q visited results
    by_cases hp : max_pages ≤ results.length
    · simp [crawl_loop, hp]
    · rcases q with _ | ⟨⟨url, d⟩, rest⟩
      · simp [crawl_loop, hp]
      · by_cases hg : url ∈ visited ∨ max_depth < d
        · simpa [crawl_loop, hp, hg] using ih rest visited results
        · have key : ∃ q2 res2,
              (crawl_loop fetch domain max_pages max_depth (n + 1)
                ((url, d) :: rest) visited results).fetched =
              url :: (crawl_loop fetch domain max_pages max_depth n q2
                (visited ++ [url]) res2).fetched := by
            cases hpr : (scrape_page fetch url domain (visited ++ [url])).1 with
            | none => exact ⟨rest, results, by simp [crawl_loop, hp, hg, hpr]⟩
            | some pd =>
              exact ⟨rest ++ (((scrape_page fetch url domain (visited ++ [url])).2.filter
                  (fun l => !(decide (l ∈ visited ++ [url])))).map (fun l => (l, d + 1))),
                results ++ [pd], by simp [crawl_loop, hp, hg, hpr]⟩
          rcases key with ⟨q2, res2, hshow⟩
          have hn := ih q2 (visited ++ [url]) res2
          constructor
          · intro u hu hvis
            rw [hshow] at hu
            rcases List.mem_cons.mp hu with rfl | hu
            · exact hg (Or.inl hvis)
            · exact hn.1 u hu (List.mem_append_left _ hvis)
          · rw [hshow, List.nodup_cons]
            exact ⟨fun hc => hn.1 url hc
              (List.mem_append_right _ (List.mem_singleton.mpr rfl)), hn.2⟩

/-- The sitemap-phase fold step of `discover_all` preserves distinctness of
the hit-map keys. -/
theorem da_smfold_keys_nodup (base : Url) (allow : List (Pattern × Ent))
    (block : List Pattern) (m : List (Url × Option Ent)) (u : Url)
    (h : (keysOf m).Nodup) :
    (keysOf (if same_domain base u then
        match in_scope u allow block with
        | (true, ent) => updateAssoc m u ent
        | (false, _) => m
      else m)).Nodup := by
  by_cases hd : same_domain base u = true
  · rcases hin : in_scope u allow block with ⟨ok, ent⟩
    cases ok
    · simpa [hd, hin] using h
    · simpa [hd, hin] using keysOf_updateAssoc_nodup m u ent h
  · rw [Bool.not_eq_true] at hd
    simpa [hd] using h

/-!  ## The claims -/

/-- C10: the domain-scoping check is a bare string-suffix test on the
network locations: `same_domain base url` holds exactly when
`urlsplit(url).netloc` ends with `urlsplit(base).netloc`, with no
label-boundary check — so `evilexample.com` counts as in-domain for base
netloc `example.com`, and a base without a scheme has an empty netloc,
making every candidate in-domain. -/
theorem same_domain_suffix_semantics :
    (∀ base url : Url, same_domain base url =
      ((urlsplit base).netloc).isSuffixOf ((urlsplit url).netloc)) ∧
    same_domain (str "http://example.com") (str "http://evilexample.com/x") = true ∧
    (∀ url : Url, same_domain (str "example.com") url = true) := by
  refine ⟨fun base url => rfl, by decide, fun url => ?_⟩
  have h : (urlsplit (str "example.com")).netloc = [] := by decide
  simp [same_domain, endswith, h, List.isSuffixOf]

/-- C2: a URL whose path matches any exclude rule is classified
`(false, none)`, whatever the include rules and whatever the order of the
rules. -/
theorem exclude_rule_absolute_veto (url : Url) (allow : List (Pattern × Ent))
    (block : List Pattern) (b : Pattern) (hb : b ∈ block)
    (hm : b ((urlsplit url).path) = true) :
    in_scope url allow block = (false, none) := by
  have hany : block.any (fun p => p ((urlsplit url).path)) = true :=
    List.any_eq_true.mpr ⟨b, hb, hm⟩
  simp [in_scope, hany]

/-- Witness for C2: a URL matched both by an include rule and an exclude
rule is out of scope. -/
theorem exclude_rule_absolute_veto_witness :
    in_scope (str "http://e.com/plans/secret")
      [(fun p => (str "/plans/").isPrefixOf p, str "plan")]
      [fun p => (str "/plans/secret").isPrefixOf p] = (false, none) :=
  exclude_rule_absolute_veto (str "http://e.com/plans/secret")
    [(fun p => (str "/plans/").isPrefixOf p, str "plan")]
    [fun p => (str "/plans/secret").isPrefixOf p]
    (fun p => (str "/plans/secret").isPrefixOf p)
    (List.mem_singleton.mpr rfl) (by decide)

/-- C3: when no exclude rule matches the path, the classifier returns the
entity hint of the first include rule (in configuration order) whose
pattern matches the path, and `(false, none)` when none matches; the
classification depends on the URL only through its path component (query
string and fragment are ignored), and when every rule is case-blind it
depends only on the lowercased path. -/
theorem include_first_match_on_path (url : Url) (allow : List (Pattern × Ent))
    (block : List Pattern)
    (hb : ∀ b ∈ block, b ((urlsplit url).path) = false) :
    (in_scope url allow block =
      match allow.find? (fun pr => pr.1 ((urlsplit url).path)) with
      | some pr => (true, some pr.2)
      | none => (false, none)) ∧
    (∀ u2 : Url, (urlsplit u2).path = (urlsplit url).path →
      in_scope u2 allow block = in_scope url allow block) ∧
    ((∀ pr ∈ allow, ∀ s1 : Str, pr.1 (lower s1) = pr.1 s1) →
      (∀ b ∈ block, ∀ s1 : Str, b (lower s1) = b s1) →
      ∀ u2 : Url, lower ((urlsplit u2).path) = lower ((urlsplit url).path) →
        in_scope u2 allow block = in_scope url allow block) := by
  refine ⟨?_, ?_, ?_⟩
  · have hany : block.any (fun p => p ((urlsplit url).path)) = false :=
      List.any_eq_false.mpr (fun b hbm => by simp [hb b hbm])
    rw [show in_scope url allow block =
        scanAllow ((urlsplit url).path) allow from by simp [in_scope, hany]]
    exact scanAllow_eq_find? _ allow
  · intro u2 hpath
    simp only [in_scope, hpath]
  · intro hca hcb u2 hlow
    have hpat : ∀ p : Pattern, (∀ s1 : Str, p (lower s1) = p s1) →
        p ((urlsplit u2).path) = p ((urlsplit url).path) := by
      intro p hp
      rw [← hp ((urlsplit u2).path), hlow, hp]
    simp only [in_scope]
    rw [any_congr_mem block ((urlsplit u2).path) ((urlsplit url).path)
      (fun b hbm => hpat b (hcb b hbm))]
    rw [scanAllow_congr ((urlsplit u2).path) ((urlsplit url).path) allow
      (fun pr hpm => hpat pr.1 (hca pr hpm))]

/-- Witness for C3: with two include rules, the first matching one wins;
the query string is not consulted. -/
theorem include_first_match_on_path_witness :
    in_scope (str "http://e.com/plans/a?x=/devices/")
      [(fun p => (str "/devices/").isPrefixOf p, str "device"),
       (fun p => (str "/plans/").isPrefixOf p, str "plan"),
       (fun _ => true, str "any")] [] = (true, some (str "plan")) := by
  have h := include_first_match_on_path (str "http://e.com/plans/a?x=/devices/")
    [(fun p => (str "/devices/").isPrefixOf p, str "device"),
     (fun p => (str "/plans/").isPrefixOf p, str "plan"),
     (fun _ => true, str "any")] []
    (fun b hbm => absurd hbm (List.not_mem_nil b))
  rw [h.1]
  decide

/-- C7: on a `<sitemapindex>` root, `parse_sitemap` recurses into every
child `<sitemap><loc>` in order and concatenates the results; on a
`<urlset>` root it collects the `<url><loc>` entries; consequently an index
pointing to a child index pointing to a URL set resolves transitively to
exactly the leaf URLs. -/
theorem sitemap_recursive_resolution (cli : Url → SmFetch) (fuel : Nat) (u : Url) :
    (∀ children, cli u = SmFetch.resp 200 (some (XmlRoot.sitemapindex children)) →
      parse_sitemap cli (fuel + 1) u =
        (children.map (fun c => parse_sitemap cli fuel c)).flatten) ∧
    (∀ locs, cli u = SmFetch.resp 200 (some (XmlRoot.urlset locs)) →
      parse_sitemap cli (fuel + 1) u = locs) ∧
    (∀ s1 s2 locs, cli u = SmFetch.resp 200 (some (XmlRoot.sitemapindex [s1])) →
      cli s1 = SmFetch.resp 200 (some (XmlRoot.sitemapindex [s2])) →
      cli s2 = SmFetch.resp 200 (some (XmlRoot.urlset locs)) →
      parse_sitemap cli (fuel + 3) u = locs) := by
  refine ⟨?_, ?_, ?_⟩
  · intro children h
    simp [parse_sitemap, h]
  · intro locs h
    simp [parse_sitemap, h]
  · intro s1 s2 locs h0 h1 h2
    simp [parse_sitemap, h0, h1, h2]

/-- Witness for C7: a three-level sitemap tree (index → index → urlset)
resolves to exactly its two leaf URLs. -/
theorem sitemap_recursive_resolution_witness :
    parse_sitemap
      (fun u =>
        if u = str "http://e.com/s0" then
          SmFetch.resp 200 (some (XmlRoot.sitemapindex [str "http://e.com/s1"]))
        else if u = str "http://e.com/s1" then
          SmFetch.resp 200 (some (XmlRoot.sitemapindex [str "http://e.com/s2"]))
        else if u = str "http://e.com/s2" then
          SmFetch.resp 200 (some (XmlRoot.urlset
            [str "http://e.com/p1", str "http://e.com/p2"]))
        else SmFetch.exn)
      3 (str "http://e.com/s0") = [str "http://e.com/p1", str "http://e.com/p2"] :=
  (sitemap_recursive_resolution
    (fun u =>
      if u = str "http://e.com/s0" then
        SmFetch.resp 200 (some (XmlRoot.sitemapindex [str "http://e.com/s1"]))
      else if u = str "http://e.com/s1" then
        SmFetch.resp 200 (some (XmlRoot.sitemapindex [str "http://e.com/s2"]))
      else if u = str "http://e.com/s2" then
        SmFetch.resp 200 (some (XmlRoot.urlset
          [str "http://e.com/p1", str "http://e.com/p2"]))
      else SmFetch.exn)
    0 (str "http://e.com/s0")).2.2
    (str "http://e.com/s1") (str "http://e.com/s2")
    [str "http://e.com/p1", str "http://e.com/p2"]
    (by decide) (by decide) (by decide)

/-- C8: sitemap resolution never propagates a failure: a robots.txt
exception or non-200 status yields no sitemaps at all; a request exception,
a parse failure or a non-200 status for one sitemap yields the empty list
for that branch only; and a sitemap index combines its children's results
independently, so other branches survive a failing sibling. -/
theorem sitemap_failure_isolation :
    (robots_sitemaps TextFetch.exn = []) ∧
    (∀ (st : Nat) (text : Str), st ≠ 200 →
      robots_sitemaps (TextFetch.resp st text) = []) ∧
    (∀ (cli : Url → SmFetch) (fuel : Nat) (u : Url), cli u = SmFetch.exn →
      parse_sitemap cli (fuel + 1) u = []) ∧
    (∀ (cli : Url → SmFetch) (fuel : Nat) (u : Url) (st : Nat),
      cli u = SmFetch.resp st none → parse_sitemap cli (fuel + 1) u = []) ∧
    (∀ (cli : Url → SmFetch) (fuel : Nat) (u : Url) (st : Nat) (doc : Option XmlRoot),
      st ≠ 200 → cli u = SmFetch.resp st doc → parse_sitemap cli (fuel + 1) u = []) ∧
    (∀ (cli : Url → SmFetch) (fuel : Nat) (u : Url) (children : List Url),
      cli u = SmFetch.resp 200 (some (XmlRoot.sitemapindex children)) →
      parse_sitemap cli (fuel + 1) u =
        (children.map (fun c => parse_sitemap cli fuel c)).flatten) := by
  refine ⟨rfl, ?_, ?_, ?_, ?_, ?_⟩
  · intro st text h
    simp [robots_sitemaps, h]
  · intro cli fuel u h
    simp [parse_sitemap, h]
  · intro cli fuel u st h
    by_cases hs : st = 200 <;> simp [parse_sitemap, h, hs]
  · intro cli fuel u st doc h hc
    simp [parse_sitemap, hc, h]
  · intro cli fuel u children h
    simp [parse_sitemap, h]

/-- Witness for C8: an index with one broken child (404) and one healthy
child still yields the healthy child's URLs. -/
theorem sitemap_failure_isolation_witness :
    parse_sitemap
      (fun u =>
        if u = str "http://e.com/s0" then
          SmFetch.resp 200 (some (XmlRoot.sitemapindex
            [str "http://e.com/bad", str "http://e.com/good"]))
        else if u = str "http://e.com/bad" then SmFetch.resp 404 none
        else if u = str "http://e.com/good" then
          SmFetch.resp 200 (some (XmlRoot.urlset [str "http://e.com/p1"]))
        else SmFetch.exn)
      2 (str "http://e.com/s0") = [str "http://e.com/p1"] := by
  rw [sitemap_failure_isolation.2.2.2.2.2
    (fun u =>
      if u = str "http://e.com/s0" then
        SmFetch.resp 200 (some (XmlRoot.sitemapindex
          [str "http://e.com/bad", str "http://e.com/good"]))
      else if u = str "http://e.com/bad" then SmFetch.resp 404 none
      else if u = str "http://e.com/good" then
        SmFetch.resp 200 (some (XmlRoot.urlset [str "http://e.com/p1"]))
      else SmFetch.exn)
    1 (str "http://e.com/s0")
    [str "http://e.com/bad", str "http://e.com/good"] (by decide)]
  decide

/-- C1: in any `discover_all` run no URL is fetched twice (the BFS fetch
trace has pairwise-distinct URLs), and likewise any `crawl` run of
`crawler.py` passes pairwise-distinct URLs to `scrape_page` — dequeuing
marks a URL visited before fetching, and visited URLs are discarded at
dequeue. -/
theorem url_fetched_at_most_once
    (robots : TextFetch) (smCli : Url → SmFetch) (smFuel : Nat)
    (cli : Url → PageFetch) (base : Url) (seeds : List Url)
    (allow : List (Pattern × Ent)) (block : List Pattern) (maxd fuel : Nat)
    (fetch : Url → CrawlFetch) (visited0 : List Url) (start_url : Url)
    (max_pages max_depth fuel2 : Nat) :
    (fetchUrls
      (discover_all robots smCli smFuel cli base seeds allow block maxd fuel).2).Nodup ∧
    (crawl fetch visited0 start_url max_pages max_depth fuel2).fetched.Nodup := by
  constructor
  · simp only [discover_all]
    exact (bfs_run_fetch_fresh (da_visit cli base allow block) maxd
      (fun url d s rest => da_visit_seen cli base allow block url d s rest)
      (fun url d s rest => da_visit_fetchUrls cli base allow block url d s rest)
      fuel _).2
  · exact (crawl_loop_fetched_fresh fetch _ max_pages max_depth fuel2 _ visited0 []).2

/-- C4 counterexample: with a seed whose fetch returns status 500 followed
by a seed whose fetch succeeds, the trace contains two adjacent fetch
events with no sleep between them — the politeness delay is skipped when a
fetch fails, because `continue` jumps past `time.sleep(throttle)`. -/
theorem politeness_delay_counterexample :
    (discover_all TextFetch.exn (fun _ => SmFetch.exn) 1
      (fun u =>
        if u = str "http://e.com/a" then
          PageFetch.resp 500 (str "http://e.com/a") ⟨[], []⟩
        else if u = str "http://e.com/b" then
          PageFetch.resp 200 (str "http://e.com/b") ⟨[], []⟩
        else PageFetch.exn)
      (str "http://e.com") [str "http://e.com/a", str "http://e.com/b"]
      [(fun _ => true, str "x")] [] 2 5).2 =
      [Ev.fetch (str "http://e.com/a") false,
       Ev.fetch (str "http://e.com/b") true, Ev.sleep] ∧
    delayBetweenFetches
      (discover_all TextFetch.exn (fun _ => SmFetch.exn) 1
        (fun u =>
          if u = str "http://e.com/a" then
            PageFetch.resp 500 (str "http://e.com/a") ⟨[], []⟩
          else if u = str "http://e.com/b" then
            PageFetch.resp 200 (str "http://e.com/b") ⟨[], []⟩
          else PageFetch.exn)
        (str "http://e.com") [str "http://e.com/a", str "http://e.com/b"]
        [(fun _ => true, str "x")] [] 2 5).2 = false := by
  constructor <;> decide

/-- C4 amended: the politeness delay follows each *successful*
fetch-and-parse iteration, and only those; an iteration whose fetch raises
or (in `discover_all`) returns a non-200 status skips the delay and
proceeds directly to the next dequeue.  This holds for every run of both
cited engines. -/
theorem sleep_follows_successful_fetch_only
    (robots : TextFetch) (smCli : Url → SmFetch) (smFuel : Nat)
    (cli : Url → PageFetch) (base : Url) (seeds : List Url)
    (allow : List (Pattern × Ent)) (block : List Pattern) (maxd fuel : Nat)
    (nav : Url → CdpFetch) (base2 : Url) (seeds2 : List Url)
    (allow2 : List (Pattern × Ent)) (block2 : List Pattern) (depth2 fuel2 : Nat) :
    SleepOk (discover_all robots smCli smFuel cli base seeds allow block maxd fuel).2 ∧
    SleepOk (discover_over_cdp nav base2 seeds2 allow2 block2 depth2 fuel2).2 := by
  constructor
  · simp only [discover_all]
    exact bfs_run_sleepok _ maxd
      (fun url d s rest => da_visit_trace cli base allow block url d s rest) fuel _
  · simp only [discover_over_cdp]
    exact bfs_run_sleepok _ depth2
      (fun url d s rest => cdp_visit_trace nav base2 allow2 block2 url d s rest) fuel2 _

/-- C5 counterexample: a fetch of `/a` is served (after a redirect) from
`/real`, the page declares no canonical link element, yet the hit map is
keyed by the *requested* URL `/a` — `discover_all` computes
`canonical_url(doc, url)` from the dequeued `url` and never consults the
response's final URL, contradicting the claim that the fallback canonical
is the URL actually served. -/
theorem canonical_fallback_counterexample :
    keysOf (discover_all TextFetch.exn (fun _ => SmFetch.exn) 1
      (fun u =>
        if u = str "http://e.com/a" then
          PageFetch.resp 200 (str "http://e.com/real") ⟨[], []⟩
        else PageFetch.exn)
      (str "http://e.com") [str "http://e.com/a"]
      [(fun _ => true, str "x")] [] 2 5).1 = [str "http://e.com/a"] ∧
    (fun u =>
      if u = str "http://e.com/a" then
        PageFetch.resp 200 (str "http://e.com/real") ⟨[], []⟩
      else PageFetch.exn) (str "http://e.com/a") =
      PageFetch.resp 200 (str "http://e.com/real") ⟨[], []⟩ ∧
    str "http://e.com/a" ≠ str "http://e.com/real" := by
  refine ⟨by decide, by decide, by decide⟩

/-- C5 amended: when a canonical link element is present its href is
resolved to absolute form (against the requested URL in `discover_all`,
against the browser's current URL in `discover_over_cdp`) and used for
classification and recording; when absent, `discover_all` falls back to
the *requested* URL — ignoring the served URL after redirects — while
`discover_over_cdp` falls back to `page.url`, the URL actually served. -/
theorem canonical_url_selection
    (cli : Url → PageFetch) (base : Url) (allow : List (Pattern × Ent))
    (block : List Pattern) (url : Url) (d : Nat) (s : DAState)
    (rest : List (Url × Nat)) (served : Url) (page : Page)
    (h : cli url = PageFetch.resp 200 served page) :
    ((da_visit cli base allow block url d s rest).1.hits =
      match in_scope (canonical_url page.canHrefs url) allow block with
      | (true, ent) => updateAssoc s.hits (canonical_url page.canHrefs url) ent
      | (false, _) => s.hits) ∧
    (∀ u2 : Url, canonical_url [] u2 = u2) ∧
    (∀ (u2 c : Url) (cs : List Url), canonical_url (c :: cs) u2 = urljoin u2 c) ∧
    (∀ pu : Url, canonical_url_cdp pu none = pu) ∧
    (∀ pu h2 : Url, h2.isEmpty = false →
      canonical_url_cdp pu (some h2) = urljoin pu h2) ∧
    (∀ (nav : Url → CdpFetch) (url2 : Url) (d2 : Nat) (s2 : DAState)
      (rest2 : List (Url × Nat)) (pageUrl : Url) (canHref : Option Url)
      (hrefs : List Url),
      nav url2 = CdpFetch.nav pageUrl canHref hrefs →
      (cdp_visit nav base allow block url2 d2 s2 rest2).1.hits =
        match in_scope (canonical_url_cdp pageUrl canHref) allow block with
        | (true, ent) => updateAssoc s2.hits (canonical_url_cdp pageUrl canHref) ent
        | (false, _) => s2.hits) := by
  refine ⟨?_, fun u2 => rfl, fun u2 c cs => rfl, fun pu => rfl, ?_, ?_⟩
  · simp [da_visit, h]
  · intro pu h2 hne
    simp [canonical_url_cdp, hne]
  · intro nav url2 d2 s2 rest2 pageUrl canHref hrefs h2
    simp [cdp_visit, h2]

/-- Witness for C5 amended: a concrete successful fetch with no canonical
element records its hit under the requested URL. -/
theorem canonical_url_selection_witness :
    (da_visit (fun _ => PageFetch.resp 200 (str "http://e.com/real") ⟨[], []⟩)
      (str "http://e.com") [(fun _ => true, str "x")] []
      (str "http://e.com/a") 0 ⟨[], [], []⟩ []).1.hits =
      match in_scope (canonical_url (Page.mk [] []).canHrefs (str "http://e.com/a"))
          [(fun _ => true, str "x")] [] with
      | (true, ent) =>
        updateAssoc (DAState.mk [] [] []).hits
          (canonical_url (Page.mk [] []).canHrefs (str "http://e.com/a")) ent
      | (false, _) => (DAState.mk [] [] []).hits :=
  (canonical_url_selection
    (fun _ => PageFetch.resp 200 (str "http://e.com/real") ⟨[], []⟩)
    (str "http://e.com") [(fun _ => true, str "x")] []
    (str "http://e.com/a") 0 ⟨[], [], []⟩ []
    (str "http://e.com/real") ⟨[], []⟩ rfl).1

/-- C6 counterexample: two distinct raw links are both served (after
redirects) by the same page, neither declares a canonical element, and the
hit map ends up with *two* keys — one per requested URL — so a page can
appear more than once when distinct raw links redirect to it. -/
theorem hit_map_duplicate_page_counterexample :
    keysOf (discover_all TextFetch.exn (fun _ => SmFetch.exn) 1
      (fun u =>
        if u = str "http://e.com/a" ∨ u = str "http://e.com/b" then
          PageFetch.resp 200 (str "http://e.com/real") ⟨[], []⟩
        else PageFetch.exn)
      (str "http://e.com") [str "http://e.com/a", str "http://e.com/b"]
      [(fun _ => true, str "x")] [] 2 5).1 =
      [str "http://e.com/a", str "http://e.com/b"] ∧
    str "http://e.com/a" ≠ str "http://e.com/b" ∧
    (fun u =>
      if u = str "http://e.com/a" ∨ u = str "http://e.com/b" then
        PageFetch.resp 200 (str "http://e.com/real") ⟨[], []⟩
      else PageFetch.exn) (str "http://e.com/a") =
    (fun u =>
      if u = str "http://e.com/a" ∨ u = str "http://e.com/b" then
        PageFetch.resp 200 (str "http://e.com/real") ⟨[], []⟩
      else PageFetch.exn) (str "http://e.com/b") := by
  refine ⟨by decide, by decide, by decide⟩

/-- C6 amended: every key of the hit map appears exactly once (the map is
a Python `dict`, and the model's assignment preserves key distinctness),
and keys are the engine's canonical forms — the raw sitemap locs in the
sitemap phase and `canonical_url(doc, requested-url)` in the crawl phase —
but pages reached through redirecting raw links without a canonical
element may occupy several keys, one per requested URL. -/
theorem hit_map_keys_distinct
    (robots : TextFetch) (smCli : Url → SmFetch) (smFuel : Nat)
    (cli : Url → PageFetch) (base : Url) (seeds : List Url)
    (allow : List (Pattern × Ent)) (block : List Pattern) (maxd fuel : Nat)
    (nav : Url → CdpFetch) (base2 : Url) (seeds2 : List Url)
    (allow2 : List (Pattern × Ent)) (block2 : List Pattern) (depth2 fuel2 : Nat) :
    (keysOf
      (discover_all robots smCli smFuel cli base seeds allow block maxd fuel).1).Nodup ∧
    (keysOf (discover_over_cdp nav base2 seeds2 allow2 block2 depth2 fuel2).1).Nodup := by
  constructor
  · simp only [discover_all]
    apply bfs_run_keys_nodup _ maxd
      (fun url d s rest => da_visit_keys_nodup cli base allow block url d s rest) fuel
    apply foldl_keys_nodup _ (fun m u => da_smfold_keys_nodup base allow block m u)
    simp [keysOf]
  · simp only [discover_over_cdp]
    apply bfs_run_keys_nodup _ depth2
      (fun url d s rest => cdp_visit_keys_nodup nav base2 allow2 block2 url d s rest) fuel2
    simp [keysOf]

/-- C9 counterexample: `crawler.py`'s `visited` is a module-level global
that `crawl` never resets.  A first run scrapes the single page of a
one-page site; a second run in the same process, seeing the global left by
the first, skips the seed at dequeue and returns no results — repeated
runs do interfere, contradicting the claim. -/
theorem visited_global_persistence_counterexample :
    (crawl (fun u =>
        if u = str "http://e.com/" then
          CrawlFetch.resp 200 ⟨some (str "T"), [str "hello"], [], []⟩
        else CrawlFetch.exn)
      [] (str "http://e.com/") 20 2 5).results.length = 1 ∧
    (crawl (fun u =>
        if u = str "http://e.com/" then
          CrawlFetch.resp 200 ⟨some (str "T"), [str "hello"], [], []⟩
        else CrawlFetch.exn)
      (crawl (fun u =>
          if u = str "http://e.com/" then
            CrawlFetch.resp 200 ⟨some (str "T"), [str "hello"], [], []⟩
          else CrawlFetch.exn)
        [] (str "http://e.com/") 20 2 5).visited
      (str "http://e.com/") 20 2 5).results = [] := by
  refine ⟨by decide, by decide⟩

/-- C9 amended: within one run the visited set only grows — in
`discover_all`'s BFS every URL in `seen` stays in `seen` — and
`discover_all` creates its `seen` locally, starting empty.  In
`crawler.py`, however, `visited` is a process-wide global: `crawl` extends
whatever contents previous runs left (every previously visited URL is
still visited afterwards), so state does persist across runs. -/
theorem visited_set_scoping
    (cli : Url → PageFetch) (base : Url) (allow : List (Pattern × Ent))
    (block : List Pattern) (maxd : Nat)
    (fetch : Url → CrawlFetch) (visited0 : List Url) (start_url : Url)
    (max_pages max_depth fuel2 : Nat) :
    (∀ (fuel : Nat) (s : DAState), ∀ u ∈ DAState.seen s,
      u ∈ (bfs_run (da_visit cli base allow block) maxd fuel s).1.seen) ∧
    (∀ u ∈ visited0,
      u ∈ (crawl fetch visited0 start_url max_pages max_depth fuel2).visited) := by
  constructor
  · intro fuel s
    exact bfs_run_seen_mono _ maxd
      (fun url d s2 rest => da_visit_seen cli base allow block url d s2 rest) fuel s
  · intro u hu
    exact crawl_loop_visited_mono fetch _ max_pages max_depth fuel2 _ visited0 [] u hu

/-- Witness for C9 amended: a concrete previously-seen URL survives a BFS
run, and a concrete pre-populated global `visited` entry survives a
`crawl` run. -/
theorem visited_set_scoping_witness :
    str "http://e.com/x" ∈ (bfs_run
      (da_visit (fun _ => PageFetch.exn) (str "http://e.com") [] []) 2 3
      ⟨[], [str "http://e.com/x"], []⟩).1.seen ∧
    str "http://e.com/y" ∈ (crawl (fun _ => CrawlFetch.exn)
      [str "http://e.com/y"] (str "http://e.com/") 5 2 3).visited :=
  ⟨(visited_set_scoping (fun _ => PageFetch.exn) (str "http://e.com") [] [] 2
      (fun _ => CrawlFetch.exn) [str "http://e.com/y"] (str "http://e.com/") 5 2 3).1
      3 ⟨[], [str "http://e.com/x"], []⟩ (str "http://e.com/x") (by decide),
   (visited_set_scoping (fun _ => PageFetch.exn) (str "http://e.com") [] [] 2
      (fun _ => CrawlFetch.exn) [str "http://e.com/y"] (str "http://e.com/") 5 2 3).2
      (str "http://e.com/y") (by decide)⟩

end WebScraping
